import Mathlib

/-!
Verification development for the subscription detection and lifecycle engine
(`src/app/services.py`, `src/app/models.py`, `src/app/main.py`).

The Python engine is shallowly embedded:
* monetary amounts (Python floats used as decimals) become `Rat`;
* timestamps (`datetime`) become `Nat` seconds since the Unix epoch, and
  calendar dates (`date`) become `Nat` days since the epoch, so that
  `timedelta.days` is `Nat` division by 86400 and `.date()` is `/ 86400`;
* the id-keyed registry dict (insertion ordered, as Python dicts are)
  becomes a `List Subscription` where assignment to an existing key
  replaces in place and assignment to a fresh key appends;
* Python exceptions (`KeyError` from an unknown subscription id) become
  `Except` error values that leave the state unchanged, since the
  exception escapes `apply_decision` before any mutation happens.

Mutation of `TransactionRecord` objects aliased between the ledger list and
the `similar` sub-list is rendered by updating the ledger by normalized key:
the `similar` list passed to `_create_subscription_from_transaction` is
exactly the set of ledger records sharing the new record's key.
-/

namespace App

/-- `SubscriptionStatus` from `models.py`. -/
inductive SubscriptionStatus where
  | active
  | cancelled
deriving DecidableEq, Repr

/-- `SubscriptionDecision` from `models.py`. -/
inductive SubscriptionDecision where
  | cancel
  | renew
deriving DecidableEq, Repr

/-- `TransactionIn` from `models.py`: description, signed amount, timestamp. -/
structure TransactionIn where
  description : String
  amount : Rat
  timestamp : Nat
deriving DecidableEq, Repr

/-- `EmailIn` from `models.py`. -/
structure EmailIn where
  subject : String
  body : String
  timestamp : Nat
deriving DecidableEq, Repr

/-- `TransactionRecord` from `models.py`. -/
structure TransactionRecord where
  description_key : String
  description : String
  amount : Rat
  timestamp : Nat
  subscription_id : Option Nat := none
deriving DecidableEq, Repr

/-- `EmailRecord` from `models.py`. -/
structure EmailRecord where
  subject : String
  body : String
  timestamp : Nat
  tags : List String := []
deriving DecidableEq, Repr

/-- `Subscription` from `models.py`.  `next_renewal_date` is a calendar
date, embedded as days since the epoch. -/
structure Subscription where
  id : Nat
  provider : String
  reference : String
  monthly_cost : Rat
  next_renewal_date : Nat
  status : SubscriptionStatus := .active
  last_transaction_at : Nat
  notes : Option String := none
deriving DecidableEq, Repr

/-- `DashboardSummary` from `models.py`. -/
structure DashboardSummary where
  active_subscriptions : Nat
  cancelled_subscriptions : Nat
  monthly_commitment : Rat
  total_savings : Rat
  upcoming_renewals : List Subscription
deriving DecidableEq, Repr

/-- The fields of `SubscriptionManager.__init__` (`services.py` lines 22-27). -/
structure ManagerState where
  transactions : List TransactionRecord := []
  emails : List EmailRecord := []
  subscriptions : List Subscription := []
  saved_total : Rat := 0
  sequence : Nat := 0
deriving DecidableEq, Repr

/-- The freshly constructed manager (`SubscriptionManager()`). -/
def initState : ManagerState := {}

/-! ### String helpers (Python `str` methods used by the Normalizer) -/

/-- Python `str.lower()` (ASCII case mapping, which covers every claim input). -/
def strLower (s : String) : String :=
  String.mk (s.toList.map Char.toLower)

/-- Whether the first character list begins the second (helper for the
Python `in` substring operator). -/
def beginsWith : List Char → List Char → Bool
  | [], _ => true
  | _ :: _, [] => false
  | p :: ps, c :: cs => p == c && beginsWith ps cs

/-- Whether `needle` occurs contiguously in the second list. -/
def hasSubstr (needle : List Char) : List Char → Bool
  | [] => needle.isEmpty
  | c :: cs => beginsWith needle (c :: cs) || hasSubstr needle cs

/-- Python `needle in hay` on strings. -/
def strContainsSub (hay needle : String) : Bool :=
  hasSubstr needle.toList hay.toList

/-- Python `str.capitalize()`: first character upper-cased, the rest lowered. -/
def pyCapitalize (s : String) : String :=
  match s.toList with
  | [] => ""
  | c :: cs => String.mk (c.toUpper :: cs.map Char.toLower)

/-- One pass of Python `str.title()`: an alphabetic character is upper-cased
when it follows a non-alphabetic character (or starts the string), lower-cased
otherwise. -/
def titleAux : Bool → List Char → List Char
  | _, [] => []
  | start, c :: cs =>
    (if c.isAlpha then (if start then c.toUpper else c.toLower) else c)
      :: titleAux (!c.isAlpha) cs

/-- Python `str.title()`. -/
def pyTitle (s : String) : String :=
  String.mk (titleAux true s.toList)

/-- Whitespace-separated words of a character list, empties dropped, with
an accumulator for the word currently being read (Python `str.split()`
with no separator argument). -/
def wordsAcc : List Char → List Char → List (List Char)
  | acc, [] => if acc.isEmpty then [] else [acc.reverse]
  | acc, c :: cs =>
    if c.isWhitespace then
      if acc.isEmpty then wordsAcc [] cs else acc.reverse :: wordsAcc [] cs
    else wordsAcc (c :: acc) cs

/-- Python `str.split()`: split on whitespace runs, no empty tokens. -/
def pyWords (s : String) : List String :=
  (wordsAcc [] s.toList).map String.mk

/-- Python `str.strip()`: drop leading and trailing whitespace. -/
def pyStrip (s : String) : String :=
  String.mk
    (((s.toList.dropWhile Char.isWhitespace).reverse.dropWhile
      Char.isWhitespace).reverse)

/-! ### Normalizer (`services.py` lines 174-196) -/

/-- `SubscriptionManager._normalize_description` (`services.py` lines 184-186):
keep alphanumeric characters, lower-case them. -/
def normalize_description (description : String) : String :=
  String.mk ((description.toList.filter Char.isAlphanum).map Char.toLower)

/-- `SubscriptionManager._derive_provider_name` (`services.py` lines 174-178):
replace non-letter non-space characters by spaces, split on whitespace, and
capitalize the first token; fall back to the trimmed title-cased original. -/
def derive_provider_name (reference : String) : String :=
  let cleaned := String.mk (reference.toList.map
    (fun ch => if ch.isAlpha || ch.isWhitespace then ch else ' '))
  let tokens := pyWords cleaned
  match tokens with
  | t :: _ => pyCapitalize t
  | [] => pyTitle (pyStrip reference)

/-- `SubscriptionManager._classify_email` (`services.py` lines 188-196). -/
def classify_email (email : EmailIn) : List String :=
  let text := strLower (email.subject ++ " " ++ email.body)
  let tags : List String :=
    if ["renew", "förnya", "fornyelse", "renewal"].any
        (fun k => strContainsSub text k) then ["renewal_notice"] else []
  if ["price increase", "höjs", "higher rate"].any
      (fun k => strContainsSub text k) then tags ++ ["price_increase"] else tags

/-! ### Date helpers -/

/-- Calendar date of a timestamp (Python `datetime.date()`), as days since
the epoch. -/
def dateOfTs (ts : Nat) : Nat := ts / 86400

/-- Civil (year, month, day) of a day count since 1970-01-01, the standard
days-to-civil conversion used by Python's `datetime.date`. -/
def civilFromDay (day : Nat) : Nat × Nat × Nat :=
  let z := day + 719468
  let era := z / 146097
  let doe := z % 146097
  let yoe := (doe - doe / 1460 + doe / 36524 - doe / 146096) / 365
  let y := yoe + era * 400
  let doy := doe - (365 * yoe + yoe / 4 - yoe / 100)
  let mp := (5 * doy + 2) / 153
  let d := doy - (153 * mp + 2) / 5 + 1
  let m := if mp < 10 then mp + 3 else mp - 9
  (if m ≤ 2 then y + 1 else y, m, d)

/-- Zero-padded decimal rendering. -/
def padNum (width n : Nat) : String :=
  let s := toString n
  String.mk (List.replicate (width - s.length) '0') ++ s

/-- Python `str(date)`, i.e. ISO `YYYY-MM-DD`, of a day count. -/
def dateISO (day : Nat) : String :=
  let c := civilFromDay day
  padNum 4 c.1 ++ "-" ++ padNum 2 c.2.1 ++ "-" ++ padNum 2 c.2.2

/-! ### Arithmetic helpers -/

/-- Python `round(x, 2)` on the exact rational model of the float values. -/
def round2 (q : Rat) : Rat := (round (q * 100) : ℤ) / 100

/-- `SubscriptionManager._average_amount` (`services.py` lines 180-182).
In `Rat`, division by an empty list's length yields the junk value 0; the
safety claim shows both call sites pass non-empty lists. -/
def average_amount (records : List TransactionRecord) : Rat :=
  (records.map (fun r => r.amount)).sum / (records.length : Rat)

/-! ### Registry helpers -/

/-- Assignment `self._subscriptions[sub.id] = sub` on the insertion-ordered
id-keyed dict: replace in place when the key exists, append otherwise. -/
def registryUpdate (regs : List Subscription) (sub : Subscription) :
    List Subscription :=
  if regs.any (fun r => r.id == sub.id) then
    regs.map (fun r => if r.id == sub.id then sub else r)
  else regs ++ [sub]

/-- Lookup `self._subscriptions[sid]`; `none` models a raised `KeyError`. -/
def findSubscription (s : ManagerState) (sid : Nat) : Option Subscription :=
  s.subscriptions.find? (fun sub => sub.id == sid)

/-! ### Ledger helpers -/

/-- Insert a record into a timestamp-sorted list after all records with an
earlier-or-equal timestamp (so the resulting sort is stable, as Python's
`list.sort` is). -/
def insertTs (r : TransactionRecord) : List TransactionRecord →
    List TransactionRecord
  | [] => [r]
  | x :: xs => if x.timestamp ≤ r.timestamp then x :: insertTs r xs
               else r :: x :: xs

/-- `similar.sort(key=lambda tx: tx.timestamp)`: stable sort by timestamp. -/
def sortByTs (l : List TransactionRecord) : List TransactionRecord :=
  l.foldl (fun acc r => insertTs r acc) []

/-- The `similar` list of `_link_transaction` (`services.py` lines 106-107):
ledger records sharing the key, sorted by timestamp. -/
def similarOf (txs : List TransactionRecord) (key : String) :
    List TransactionRecord :=
  sortByTs (txs.filter (fun tx => tx.description_key == key))

/-- `record.subscription_id = sid; self._transactions[-1] = record`
(`services.py` lines 115-116): link the last ledger record. -/
def updateLast (sid : Nat) : List TransactionRecord → List TransactionRecord
  | [] => []
  | [tx] => [{ tx with subscription_id := some sid }]
  | tx :: rest => tx :: updateLast sid rest

/-- The loop `for tx in transactions: tx.subscription_id = subscription.id`
(`services.py` lines 137-138).  The loop runs over the aliased `similar`
records, i.e. exactly the ledger records with the given key. -/
def linkByKey (key : String) (sid : Nat) (txs : List TransactionRecord) :
    List TransactionRecord :=
  txs.map (fun tx => if tx.description_key == key then
    { tx with subscription_id := some sid } else tx)

/-- Python `max(l, key=lambda tx: tx.timestamp)` starting from `cur`: the
first record with the maximal timestamp. -/
def maxByTs : TransactionRecord → List TransactionRecord → TransactionRecord
  | cur, [] => cur
  | cur, x :: xs => maxByTs (if cur.timestamp < x.timestamp then x else cur) xs

/-! ### Matching Engine (`services.py` lines 105-153) -/

/-- The `Subscription(...)` literal built at `services.py` lines 127-135
from the fresh sequence value, the same-key transactions and the latest of
them. -/
def createdSub (seq : Nat) (transactions : List TransactionRecord)
    (latest : TransactionRecord) : Subscription :=
  { id := seq
    provider := derive_provider_name latest.description
    reference := latest.description
    monthly_cost := round2 |average_amount transactions|
    next_renewal_date := dateOfTs (latest.timestamp + 30 * 86400)
    status := .active
    last_transaction_at := latest.timestamp
    notes := none }

/-- `SubscriptionManager._create_subscription_from_transaction`
(`services.py` lines 121-139), given the `similar` list and the state whose
ledger records it aliases.  Returns the new subscription id and the updated
state.  The empty-list case is unreachable junk (the caller guarantees at
least two records). -/
def create_subscription_from_transaction (transactions : List TransactionRecord)
    (s : ManagerState) : Nat × ManagerState :=
  match transactions.reverse with
  | [] => (0, s)
  | latest :: _ =>
    (s.sequence + 1, { s with
      sequence := s.sequence + 1
      subscriptions := registryUpdate s.subscriptions
        (createdSub (s.sequence + 1) transactions latest)
      transactions := linkByKey latest.description_key (s.sequence + 1)
        s.transactions })

/-- `subscription_id = previous.subscription_id or self._create_subscription_from_transaction(similar)`
(`services.py` line 114).  Subscription ids are always ≥ 1, so Python's
truthiness test on the optional id coincides with `Option` matching. -/
def resolveSubscriptionId (previous : TransactionRecord)
    (similar : List TransactionRecord) (s : ManagerState) : Nat × ManagerState :=
  match previous.subscription_id with
  | some n => (n, s)
  | none => create_subscription_from_transaction similar s

/-- `SubscriptionManager._update_subscription_from_transactions`
(`services.py` lines 141-153).  The empty-filter and missing-id cases model
the Python `ValueError`/`KeyError` paths, unreachable in the engine flow, by
leaving the state unchanged. -/
def update_subscription_from_transactions (sid : Nat) (s : ManagerState) :
    ManagerState :=
  let subscription_transactions :=
    s.transactions.filter (fun tx => tx.subscription_id == some sid)
  match subscription_transactions with
  | [] => s
  | t0 :: rest =>
    let latest := maxByTs t0 rest
    let avg_amount := average_amount subscription_transactions
    let next_renewal := dateOfTs (latest.timestamp + 30 * 86400)
    match findSubscription s sid with
    | none => s
    | some sub =>
      let sub' := { sub with
        monthly_cost := round2 |avg_amount|
        next_renewal_date := next_renewal
        last_transaction_at := latest.timestamp }
      { s with subscriptions := registryUpdate s.subscriptions sub' }

/-- Lines 114-118 of `_link_transaction`: resolve the subscription id (reuse
the predecessor's or create), link the last ledger record, recompute the
subscription snapshot, and return the registry entry. -/
def linkFound (previous : TransactionRecord) (similar : List TransactionRecord)
    (s : ManagerState) : Option Subscription × ManagerState :=
  let r := resolveSubscriptionId previous similar s
  let s2 := { r.2 with transactions := updateLast r.1 r.2.transactions }
  let s3 := update_subscription_from_transactions r.1 s2
  (findSubscription s3 r.1, s3)

/-- `SubscriptionManager._link_transaction` (`services.py` lines 105-119),
called with the new record already appended as the last ledger entry. -/
def link_transaction (s : ManagerState) : Option Subscription × ManagerState :=
  match s.transactions.getLast? with
  | none => (none, s)
  | some record =>
    match (similarOf s.transactions record.description_key).reverse with
    | latest :: previous :: _ =>
      if 27 ≤ (latest.timestamp - previous.timestamp) / 86400
          ∧ (latest.timestamp - previous.timestamp) / 86400 ≤ 33 then
        linkFound previous (similarOf s.transactions record.description_key) s
      else (none, s)
    | _ => (none, s)

/-- The `TransactionRecord(...)` built at `services.py` lines 45-50. -/
def recordOf (t : TransactionIn) : TransactionRecord :=
  { description_key := normalize_description t.description
    description := t.description
    amount := t.amount
    timestamp := t.timestamp
    subscription_id := none }

/-- `SubscriptionManager.register_transaction` (`services.py` lines 43-52). -/
def register_transaction (tx : TransactionIn) (s : ManagerState) :
    Option Subscription × ManagerState :=
  link_transaction { s with transactions := s.transactions ++ [recordOf tx] }

/-! ### Email Classifier & Correlator (`services.py` lines 54-64, 155-172) -/

/-- The `price_increase` block of
`SubscriptionManager._maybe_update_subscription_from_email`
(`services.py` lines 156-159): iterate over the registry values and assign
each one's note-updated copy back by id. -/
def priceIncreaseEffect (email : EmailRecord) (subs : List Subscription) :
    List Subscription :=
  subs.foldl (fun acc sub => registryUpdate acc
    { sub with notes := some ("Price increase detected on "
        ++ dateISO (dateOfTs email.timestamp)) }) subs

/-- The `renewal_notice` block of
`SubscriptionManager._maybe_update_subscription_from_email`
(`services.py` lines 160-172): the `grouped` dict bucket for the derived
provider's lower-cased name is the registry-ordered list of subscriptions
whose lower-cased provider equals it; each match is assigned its updated
copy back by id. -/
def renewalNoticeEffect (email : EmailRecord) (subs : List Subscription) :
    List Subscription :=
  let provider := derive_provider_name email.subject
  let matched := subs.filter
    (fun sub => strLower sub.provider == strLower provider)
  if matched.isEmpty then subs
  else matched.foldl (fun acc sub => registryUpdate acc
    { sub with
      next_renewal_date := dateOfTs (email.timestamp + 7 * 86400)
      notes := some "Renewal reminder synced from email" }) subs

/-- `SubscriptionManager._maybe_update_subscription_from_email`
(`services.py` lines 155-172). -/
def maybe_update_subscription_from_email (email : EmailRecord)
    (subs : List Subscription) : List Subscription :=
  let subs1 := if email.tags.contains "price_increase"
    then priceIncreaseEffect email subs else subs
  if email.tags.contains "renewal_notice"
    then renewalNoticeEffect email subs1 else subs1

/-- `SubscriptionManager.ingest_email` (`services.py` lines 54-64). -/
def ingest_email (email : EmailIn) (s : ManagerState) :
    EmailRecord × ManagerState :=
  let record : EmailRecord :=
    { subject := email.subject
      body := email.body
      timestamp := email.timestamp
      tags := classify_email email }
  (record, { s with
    emails := s.emails ++ [record]
    subscriptions := maybe_update_subscription_from_email record s.subscriptions })

/-! ### Decision Processor (`services.py` lines 66-83, `main.py` lines 37-42) -/

/-- `SubscriptionManager.apply_decision` (`services.py` lines 66-83).  An
unknown id raises `KeyError` at line 67, before any mutation; that is the
`Except.error` branch, returning the state unchanged. -/
def apply_decision (sid : Nat) (decision : SubscriptionDecision)
    (s : ManagerState) : Except String Subscription × ManagerState :=
  match findSubscription s sid with
  | none => (.error "KeyError", s)
  | some subscription =>
    match decision with
    | .cancel =>
      let saved := if subscription.status = .cancelled then s.saved_total
        else s.saved_total + subscription.monthly_cost
      let sub' := { subscription with
        status := .cancelled
        notes := some "Cancelled via assistant" }
      (.ok sub', { s with
        saved_total := saved
        subscriptions := registryUpdate s.subscriptions sub' })
    | .renew =>
      let sub' := { subscription with
        status := .active
        next_renewal_date := subscription.next_renewal_date + 30
        notes := some "Renewed via assistant" }
      (.ok sub', { s with subscriptions := registryUpdate s.subscriptions sub' })

/-- The `/subscriptions/{id}/decision` route handler (`main.py` lines 37-42):
reject an unknown id with HTTP 404 before invoking the manager. -/
def apply_decision_endpoint (sid : Nat) (decision : SubscriptionDecision)
    (s : ManagerState) : Except Nat Subscription × ManagerState :=
  if (s.subscriptions.map (fun sub => sub.id)).contains sid then
    match apply_decision sid decision s with
    | (.ok sub, s') => (.ok sub, s')
    | (.error _, s') => (.error 500, s')
  else (.error 404, s)

/-! ### Dashboard Aggregator (`services.py` lines 85-100) -/

/-- Stable insert by `next_renewal_date` (Python `sorted` with that key). -/
def insertRen (sub : Subscription) : List Subscription → List Subscription
  | [] => [sub]
  | x :: xs => if x.next_renewal_date ≤ sub.next_renewal_date
      then x :: insertRen sub xs
      else sub :: x :: xs

/-- `sorted(upcoming, key=lambda s: s.next_renewal_date)`: stable sort. -/
def sortByRenewal (l : List Subscription) : List Subscription :=
  l.foldl (fun acc sub => insertRen sub acc) []

/-- `SubscriptionManager.dashboard` (`services.py` lines 85-100), with
`datetime.utcnow().date()` passed in as the `today` day count. -/
def dashboard (today : Nat) (horizon_days : Nat) (s : ManagerState) :
    DashboardSummary :=
  let active := s.subscriptions.filter (fun sub => sub.status == .active)
  let cancelled := s.subscriptions.filter (fun sub => sub.status == .cancelled)
  let upcoming_cutoff := today + horizon_days
  let upcoming := active.filter (fun sub => sub.next_renewal_date ≤ upcoming_cutoff)
  { active_subscriptions := active.length
    cancelled_subscriptions := cancelled.length
    monthly_commitment := round2 (active.map (fun sub => sub.monthly_cost)).sum
    total_savings := round2 s.saved_total
    upcoming_renewals := sortByRenewal upcoming }

/-! ### Engine operations as a single step type -/

/-- One inbound engine event: transaction, email, decision, or a dashboard
read with its `today` date and horizon. -/
inductive Op where
  | tx : TransactionIn → Op
  | email : EmailIn → Op
  | decision : Nat → SubscriptionDecision → Op
  | dash : Nat → Nat → Op
deriving DecidableEq, Repr

/-- The state transition of one engine operation.  `dashboard` contains no
assignment to manager state, so the `dash` case returns the state as is. -/
def applyOp : Op → ManagerState → ManagerState
  | .tx t, s => (register_transaction t s).2
  | .email e, s => (ingest_email e s).2
  | .decision sid d, s => (apply_decision sid d s).2
  | .dash _ _, s => s

/-! ### A concrete ingestion trace

Four transactions with the same normalized key `"spotifyabo"`, posted on
days 0, 30, 80 and 110.  Day 30 is 30 days after day 0 (in the cadence
window), day 80 is 47 days after day 30 (outside the window), and day 110
is 30 days after day 80 (in the window again). -/

/-- A Spotify debit of 99 posted at second `ts`. -/
def spotifyTx (ts : Nat) : TransactionIn :=
  { description := "Spotify ABO", amount := -99, timestamp := ts }

/-- State and result after ingesting the day-0 transaction. -/
def trace1 : Option Subscription × ManagerState :=
  register_transaction (spotifyTx 0) initState

/-- State and result after also ingesting the day-30 transaction. -/
def trace2 : Option Subscription × ManagerState :=
  register_transaction (spotifyTx (30 * 86400)) trace1.2

/-- State and result after also ingesting the day-80 transaction. -/
def trace3 : Option Subscription × ManagerState :=
  register_transaction (spotifyTx (80 * 86400)) trace2.2

/-- State and result after also ingesting the day-110 transaction. -/
def trace4 : Option Subscription × ManagerState :=
  register_transaction (spotifyTx (110 * 86400)) trace3.2

/-! ### Small concrete fixtures used by witness theorems -/

/-- A subscription as the engine creates it from the two Spotify debits. -/
def sub99 : Subscription :=
  { id := 1
    provider := "Spotify"
    reference := "Spotify ABO"
    monthly_cost := 99
    next_renewal_date := 60
    status := .active
    last_transaction_at := 2592000
    notes := none }

/-- A manager owning the single subscription `sub99`. -/
def oneSubState : ManagerState :=
  { transactions := []
    emails := []
    subscriptions := [sub99]
    saved_total := 0
    sequence := 1 }

/-- The ledger record of the day-0 Spotify debit. -/
def recA : TransactionRecord :=
  { description_key := "spotifyabo"
    description := "Spotify ABO"
    amount := -99
    timestamp := 0
    subscription_id := none }

/-- The ledger record of the day-30 Spotify debit. -/
def recB : TransactionRecord :=
  { description_key := "spotifyabo"
    description := "Spotify ABO"
    amount := -99
    timestamp := 2592000
    subscription_id := none }

/-- A manager holding the two Spotify records, as `_link_transaction` sees
the ledger right after the second append. -/
def twoTxState : ManagerState :=
  { transactions := [recA, recB]
    emails := []
    subscriptions := []
    saved_total := 0
    sequence := 0 }

/-- An already-tagged price-increase email record. -/
def priceEmail : EmailRecord :=
  { subject := "Notice"
    body := "price increase ahead"
    timestamp := 0
    tags := ["price_increase"] }

/-- An already-tagged renewal-notice email record whose subject derives the
provider "Spotify". -/
def renewalEmail : EmailRecord :=
  { subject := "Spotify renewal reminder"
    body := "renew soon"
    timestamp := 0
    tags := ["renewal_notice"] }

/-! ## Theorems -/

/-- C1.  The re-linking stability guarantee fails on the code.  In the
four-transaction Spotify trace the cluster first produces subscription 1
(on the day-30 transaction), the day-80 transaction falls outside the
cadence window, and the day-110 transaction is exactly 30 days after its
immediate predecessor — yet the engine then creates a second subscription
with identifier 2 for the same cluster instead of updating subscription 1,
because `_link_transaction` consults only the immediate predecessor's
`subscription_id`, which the gap transaction left unset. -/
theorem relink_forks_new_subscription_id :
    (trace2.1.map Subscription.id = some 1)
    ∧ (trace2.2.subscriptions.map Subscription.id = [1])
    ∧ (trace3.1 = none)
    ∧ ((similarOf trace4.2.transactions "spotifyabo").reverse.map
        (fun t => t.timestamp / 86400) = [110, 80, 30, 0])
    ∧ (trace4.1.map Subscription.id = some 2)
    ∧ (trace4.2.subscriptions.map Subscription.id = [1, 2]) := by
  decide

/-- C2.  The `subscriptionId`-never-reassigned invariant fails on the code.
After the day-30 transaction both Spotify ledger records carry
`subscription_id = some 1`; the day-110 registration (a subsequent engine
operation) re-links every record of the cluster, so the first record's
field is reassigned to `some 2`. -/
theorem transaction_subscription_id_reassigned :
    (trace2.2.transactions.map (fun t => t.subscription_id)
      = [some 1, some 1])
    ∧ (trace4.2.transactions.map (fun t => t.subscription_id)
      = [some 2, some 2, some 2, some 2]) := by
  decide

/-- C4.  A decision naming a subscription identifier absent from the
registry fails with Not-Found: the route handler answers 404 without
invoking the manager, the manager itself maps the unknown id to the
`KeyError` value before any mutation, and in both cases the state —
ledger, registry, savings accumulator — is returned entirely unchanged. -/
theorem unknown_id_decision_rejected (s : ManagerState) (sid : Nat)
    (d : SubscriptionDecision)
    (h : ∀ sub ∈ s.subscriptions, sub.id ≠ sid) :
    apply_decision sid d s = (.error "KeyError", s)
    ∧ apply_decision_endpoint sid d s = (.error 404, s) := by
  have hfind : findSubscription s sid = none := by
    apply List.find?_eq_none.mpr
    intro sub hmem
    simpa using h sub hmem
  have hcont : ((s.subscriptions.map (fun sub => sub.id)).contains sid) = false := by
    rw [List.contains_eq_any_beq, List.any_eq_false]
    intro x hx
    obtain ⟨sub, hmem, rfl⟩ := List.mem_map.mp hx
    intro hbeq
    exact h sub hmem (beq_iff_eq.mp hbeq).symm
  refine ⟨?_, ?_⟩
  · unfold apply_decision
    rw [hfind]
  · unfold apply_decision_endpoint
    simp only [hcont]
    simp

/-- Witness for C4 at the one-subscription state and the unknown id 7. -/
theorem unknown_id_decision_rejected_witness :
    (∀ sub ∈ oneSubState.subscriptions, sub.id ≠ 7)
    ∧ apply_decision 7 .cancel oneSubState = (.error "KeyError", oneSubState)
    ∧ apply_decision_endpoint 7 .cancel oneSubState
        = (.error 404, oneSubState) :=
  ⟨by decide,
   (unknown_id_decision_rejected oneSubState 7 .cancel (by decide)).1,
   (unknown_id_decision_rejected oneSubState 7 .cancel (by decide)).2⟩

/-- C6.  Applying a Cancel decision to a registered subscription changes
only its status and note: identifier, provider, reference, monthly cost,
next renewal date and last-transaction timestamp are all unchanged in the
returned snapshot. -/
theorem cancel_changes_only_status_and_note (s : ManagerState) (sid : Nat)
    (sub : Subscription) (h : findSubscription s sid = some sub) :
    ∃ sub', (apply_decision sid .cancel s).1 = .ok sub'
      ∧ sub'.id = sub.id
      ∧ sub'.provider = sub.provider
      ∧ sub'.reference = sub.reference
      ∧ sub'.monthly_cost = sub.monthly_cost
      ∧ sub'.next_renewal_date = sub.next_renewal_date
      ∧ sub'.last_transaction_at = sub.last_transaction_at
      ∧ sub'.status = .cancelled
      ∧ sub'.notes = some "Cancelled via assistant" := by
  refine ⟨{ sub with status := .cancelled, notes := some "Cancelled via assistant" }, ?_⟩
  simp [apply_decision, h]

/-- The savings accumulator is not written by subscription creation. -/
theorem create_saved_total (l : List TransactionRecord) (s : ManagerState) :
    (create_subscription_from_transaction l s).2.saved_total = s.saved_total := by
  unfold create_subscription_from_transaction
  split <;> rfl

/-- The savings accumulator is not written when resolving a subscription id. -/
theorem resolve_saved_total (p : TransactionRecord) (l : List TransactionRecord)
    (s : ManagerState) :
    (resolveSubscriptionId p l s).2.saved_total = s.saved_total := by
  unfold resolveSubscriptionId
  split
  · rfl
  · exact create_saved_total l s

/-- The savings accumulator is not written by subscription recomputation. -/
theorem update_saved_total (sid : Nat) (s : ManagerState) :
    (update_subscription_from_transactions sid s).saved_total = s.saved_total := by
  unfold update_subscription_from_transactions
  cases hf : List.filter (fun tx => tx.subscription_id == some sid) s.transactions with
  | nil => simp only [hf]
  | cons t0 rest =>
    simp only [hf]
    cases hfind : findSubscription s sid with
    | none => simp only [hfind]
    | some sub => simp only [hfind]

/-- The savings accumulator is not written by the link continuation. -/
theorem linkFound_saved_total (previous : TransactionRecord)
    (similar : List TransactionRecord) (s : ManagerState) :
    (linkFound previous similar s).2.saved_total = s.saved_total := by
  unfold linkFound
  simp only [update_saved_total, resolve_saved_total]

/-- The savings accumulator is not written by transaction linking. -/
theorem link_saved_total (s : ManagerState) :
    (link_transaction s).2.saved_total = s.saved_total := by
  unfold link_transaction
  cases hlast : s.transactions.getLast? with
  | none => rfl
  | some record =>
    cases hrev : (similarOf s.transactions record.description_key).reverse with
    | nil => simp only [hrev]
    | cons a t =>
      cases t with
      | nil => simp only [hrev]
      | cons b t' =>
        simp only [hrev]
        split
        · exact linkFound_saved_total _ _ _
        · rfl

/-- The savings accumulator is not written by transaction registration. -/
theorem register_saved_total (t : TransactionIn) (s : ManagerState) :
    (register_transaction t s).2.saved_total = s.saved_total := by
  unfold register_transaction
  rw [link_saved_total]

/-- The savings accumulator is not written by email ingestion. -/
theorem ingest_saved_total (e : EmailIn) (s : ManagerState) :
    (ingest_email e s).2.saved_total = s.saved_total := rfl

/-- C5.  Across every engine operation the savings accumulator is
monotonically non-decreasing (given the engine invariant that registry
costs are non-negative magnitudes); a Cancel decision on a registered
subscription adds exactly its monthly cost when the subscription is not
yet Cancelled and exactly zero when it already is; and any change of the
accumulator can only come from a Cancel decision on a registered,
not-yet-Cancelled subscription. -/
theorem savings_accumulator_behavior (s : ManagerState)
    (h : ∀ sub ∈ s.subscriptions, 0 ≤ sub.monthly_cost) (op : Op) :
    s.saved_total ≤ (applyOp op s).saved_total
    ∧ (∀ sid sub, op = Op.decision sid SubscriptionDecision.cancel →
        findSubscription s sid = some sub →
        (applyOp op s).saved_total = s.saved_total
          + (if sub.status = SubscriptionStatus.cancelled then 0 else sub.monthly_cost))
    ∧ ((applyOp op s).saved_total ≠ s.saved_total →
        ∃ sid sub, op = Op.decision sid SubscriptionDecision.cancel
          ∧ findSubscription s sid = some sub
          ∧ sub.status ≠ SubscriptionStatus.cancelled) := by
  cases op with
  | tx t =>
    have he : (applyOp (Op.tx t) s).saved_total = s.saved_total :=
      register_saved_total t s
    exact ⟨he.symm.le, fun sid sub hop => absurd hop (by simp),
      fun hne => absurd he hne⟩
  | email e =>
    have he : (applyOp (Op.email e) s).saved_total = s.saved_total := rfl
    exact ⟨he.symm.le, fun sid sub hop => absurd hop (by simp),
      fun hne => absurd he hne⟩
  | dash a b =>
    have he : (applyOp (Op.dash a b) s).saved_total = s.saved_total := rfl
    exact ⟨he.symm.le, fun sid sub hop => absurd hop (by simp),
      fun hne => absurd he hne⟩
  | decision sid d =>
    cases hfind : findSubscription s sid with
    | none =>
      have he : (applyOp (Op.decision sid d) s).saved_total = s.saved_total := by
        show (apply_decision sid d s).2.saved_total = s.saved_total
        unfold apply_decision
        rw [hfind]
      refine ⟨he.symm.le, ?_, fun hne => absurd he hne⟩
      intro sid' sub' hop hfind'
      injection hop with h1 h2
      subst h1
      rw [hfind] at hfind'
      cases hfind'
    | some sub =>
      cases d with
      | renew =>
        have he : (applyOp (Op.decision sid .renew) s).saved_total = s.saved_total := by
          show (apply_decision sid .renew s).2.saved_total = s.saved_total
          unfold apply_decision
          rw [hfind]
        refine ⟨he.symm.le, ?_, fun hne => absurd he hne⟩
        intro sid' sub' hop
        injection hop with h1 h2
        cases h2
      | cancel =>
        have he : (applyOp (Op.decision sid .cancel) s).saved_total
            = if sub.status = SubscriptionStatus.cancelled then s.saved_total
              else s.saved_total + sub.monthly_cost := by
          show (apply_decision sid .cancel s).2.saved_total = _
          unfold apply_decision
          rw [hfind]
        by_cases hst : sub.status = SubscriptionStatus.cancelled
        · rw [if_pos hst] at he
          refine ⟨he.symm.le, ?_, fun hne => absurd he hne⟩
          intro sid' sub' hop hfind'
          injection hop with h1 h2
          subst h1
          rw [hfind] at hfind'
          injection hfind' with h3
          subst h3
          rw [he, if_pos hst, add_zero]
        · rw [if_neg hst] at he
          have hc : 0 ≤ sub.monthly_cost :=
            h sub (List.mem_of_find?_eq_some hfind)
          refine ⟨?_, ?_, fun _ => ⟨sid, sub, rfl, hfind, hst⟩⟩
          · rw [he]
            exact le_add_of_nonneg_right hc
          · intro sid' sub' hop hfind'
            injection hop with h1 h2
            subst h1
            rw [hfind] at hfind'
            injection hfind' with h3
            subst h3
            rw [he, if_neg hst]

/-- Witness for C5: cancelling the active 99-cost subscription adds 99. -/
theorem savings_accumulator_behavior_witness :
    (∀ sub ∈ oneSubState.subscriptions, 0 ≤ sub.monthly_cost)
    ∧ oneSubState.saved_total
        ≤ (applyOp (Op.decision 1 SubscriptionDecision.cancel) oneSubState).saved_total
    ∧ (applyOp (Op.decision 1 SubscriptionDecision.cancel) oneSubState).saved_total
        = oneSubState.saved_total
          + (if sub99.status = SubscriptionStatus.cancelled then 0
             else sub99.monthly_cost) :=
  ⟨by decide,
   (savings_accumulator_behavior oneSubState (by decide)
      (Op.decision 1 SubscriptionDecision.cancel)).1,
   (savings_accumulator_behavior oneSubState (by decide)
      (Op.decision 1 SubscriptionDecision.cancel)).2.1 1 sub99 rfl (by decide)⟩

/-- Witness for C6 at the one-subscription state. -/
theorem cancel_changes_only_status_and_note_witness :
    findSubscription oneSubState 1 = some sub99
    ∧ ∃ sub', (apply_decision 1 .cancel oneSubState).1 = .ok sub'
      ∧ sub'.id = sub99.id
      ∧ sub'.provider = sub99.provider
      ∧ sub'.reference = sub99.reference
      ∧ sub'.monthly_cost = sub99.monthly_cost
      ∧ sub'.next_renewal_date = sub99.next_renewal_date
      ∧ sub'.last_transaction_at = sub99.last_transaction_at
      ∧ sub'.status = .cancelled
      ∧ sub'.notes = some "Cancelled via assistant" :=
  ⟨by decide, cancel_changes_only_status_and_note oneSubState 1 sub99 (by decide)⟩

/-- Linking the last element of an appended list updates the appended
record. -/
theorem updateLast_append (sid : Nat) :
    ∀ (l : List TransactionRecord) (x : TransactionRecord),
      updateLast sid (l ++ [x]) = l ++ [{ x with subscription_id := some sid }] := by
  intro l
  induction l with
  | nil => intro x; rfl
  | cons a l' ih =>
    intro x
    cases l' with
    | nil => rfl
    | cons b l'' =>
      show a :: updateLast sid ((b :: l'') ++ [x]) = _
      rw [ih x]
      rfl

/-- After the create-loop links every same-key record, the records linked to
the fresh id are exactly the same-key ones (given none was linked to that id
before). -/
theorem filter_linkByKey (key : String) (sid : Nat) :
    ∀ l : List TransactionRecord,
      (∀ r ∈ l, r.subscription_id ≠ some sid) →
      (linkByKey key sid l).filter (fun r => r.subscription_id == some sid)
      = (l.filter (fun r => r.description_key == key)).map
          (fun r => { r with subscription_id := some sid }) := by
  intro l
  induction l with
  | nil => intro _; rfl
  | cons a l' ih =>
    intro h
    have htail := ih (fun r hr => h r (List.mem_cons_of_mem a hr))
    have hcons : linkByKey key sid (a :: l')
        = (if (a.description_key == key) = true
            then { a with subscription_id := some sid } else a)
          :: linkByKey key sid l' := rfl
    by_cases hk : (a.description_key == key) = true
    · rw [hcons, if_pos hk, List.filter_cons, List.filter_cons, if_pos hk]
      have hpa : (({ a with subscription_id := some sid }
          : TransactionRecord).subscription_id == some sid) = true :=
        beq_self_eq_true _
      simp [hpa, htail]
    · rw [hcons, if_neg hk, List.filter_cons, List.filter_cons, if_neg hk]
      have hna : (a.subscription_id == some sid) = false := by
        rw [beq_eq_false_iff_ne]
        exact h a (List.mem_cons_self a l')
      simp [hna, htail]

/-- Registry lookup skips a prefix whose ids all differ from the key. -/
theorem find?_id_append (sid : Nat) (regs l₂ : List Subscription)
    (h : ∀ sub ∈ regs, sub.id ≠ sid) :
    (regs ++ l₂).find? (fun sub => sub.id == sid)
    = l₂.find? (fun sub => sub.id == sid) := by
  rw [List.find?_append]
  have hn : regs.find? (fun sub => sub.id == sid) = none := by
    rw [List.find?_eq_none]
    intro x hx hbeq
    exact h x hx (beq_iff_eq.mp hbeq)
  rw [hn]
  rfl

/-- Assigning a fresh id to the registry dict appends. -/
theorem registryUpdate_fresh (regs : List Subscription) (sub : Subscription)
    (h : ∀ r ∈ regs, r.id ≠ sub.id) :
    registryUpdate regs sub = regs ++ [sub] := by
  unfold registryUpdate
  have hany : (regs.any fun r => r.id == sub.id) = false := by
    rw [List.any_eq_false]
    intro x hx hbeq
    exact h x hx (beq_iff_eq.mp hbeq)
  rw [hany]
  simp

/-- Re-assigning the id of the last registry entry replaces it in place. -/
theorem registryUpdate_last (regs : List Subscription) (sub sub' : Subscription)
    (hid : sub'.id = sub.id)
    (h : ∀ r ∈ regs, r.id ≠ sub.id) :
    registryUpdate (regs ++ [sub]) sub' = regs ++ [sub'] := by
  unfold registryUpdate
  have hany : ((regs ++ [sub]).any fun r => r.id == sub'.id) = true := by
    rw [List.any_eq_true]
    refine ⟨sub, List.mem_append_right _ (List.mem_cons_self _ _), ?_⟩
    rw [hid]
    exact beq_self_eq_true _
  rw [hany]
  simp only [if_true, List.map_append]
  congr 1
  · apply (List.map_congr_left ?_).trans (List.map_id' regs)
    intro r hr
    have : (r.id == sub'.id) = false := by
      rw [beq_eq_false_iff_ne, hid]
      exact h r hr
    rw [this]
    simp
  · simp [hid]

/-- The stable timestamp sort of a two-element list. -/
theorem sortByTs_pair (a b : TransactionRecord) :
    sortByTs [a, b] = if a.timestamp ≤ b.timestamp then [a, b] else [b, a] := by
  show insertTs b (insertTs a []) = _
  show insertTs b [a] = _
  show (if a.timestamp ≤ b.timestamp then a :: insertTs b [] else b :: [a]) = _
  split <;> rfl

/-- Linking always marks the last ledger record, so afterwards some record
carries the linked subscription id. -/
theorem exists_mem_updateLast (sid : Nat) :
    ∀ l : List TransactionRecord, l ≠ [] →
      ∃ x ∈ updateLast sid l, x.subscription_id = some sid := by
  intro l
  induction l with
  | nil => intro h; exact absurd rfl h
  | cons a t ih =>
    intro _
    cases t with
    | nil =>
      exact ⟨{ a with subscription_id := some sid }, by simp [updateLast], rfl⟩
    | cons b t' =>
      obtain ⟨x, hx, hid⟩ := ih (by simp)
      exact ⟨x, List.mem_cons_of_mem a hx, hid⟩

/-- C10.  Both `_average_amount` call sites receive non-empty lists, so the
`len(records)` denominator is always positive.  Under the guard of
`_link_transaction` (at least two same-key records, day interval in
[27, 33]) the `similar` list handed to subscription creation is non-empty,
and the ledger filter recomputed by `_update_subscription_from_transactions`
still contains the just-linked last record, whichever way the subscription
id is resolved. -/
theorem average_amount_args_nonempty (s : ManagerState) (record : TransactionRecord)
    (hlast : s.transactions.getLast? = some record)
    (latest previous : TransactionRecord) (rest : List TransactionRecord)
    (hrev : (similarOf s.transactions record.description_key).reverse
        = latest :: previous :: rest)
    (_hlo : 27 ≤ (latest.timestamp - previous.timestamp) / 86400)
    (_hhi : (latest.timestamp - previous.timestamp) / 86400 ≤ 33) :
    similarOf s.transactions record.description_key ≠ []
    ∧ ((updateLast
          (resolveSubscriptionId previous
            (similarOf s.transactions record.description_key) s).1
          (resolveSubscriptionId previous
            (similarOf s.transactions record.description_key) s).2.transactions).filter
        (fun tx => tx.subscription_id
          == some (resolveSubscriptionId previous
              (similarOf s.transactions record.description_key) s).1)) ≠ [] := by
  have htx : s.transactions ≠ [] := by
    intro hnil
    rw [hnil] at hlast
    cases hlast
  constructor
  · intro hnil
    rw [hnil] at hrev
    cases hrev
  · cases hps : previous.subscription_id with
    | some n =>
      have hr : resolveSubscriptionId previous
          (similarOf s.transactions record.description_key) s = (n, s) := by
        unfold resolveSubscriptionId
        rw [hps]
      rw [hr]
      obtain ⟨x, hx, hid⟩ := exists_mem_updateLast n s.transactions htx
      intro hnil
      have hmem : x ∈ ([] : List TransactionRecord) := by
        rw [← hnil]
        exact List.mem_filter.mpr ⟨hx, by simp [hid]⟩
      cases hmem
    | none =>
      have hr : resolveSubscriptionId previous
          (similarOf s.transactions record.description_key) s
          = create_subscription_from_transaction
              (similarOf s.transactions record.description_key) s := by
        unfold resolveSubscriptionId
        rw [hps]
      rw [hr]
      have h1 : (create_subscription_from_transaction
          (similarOf s.transactions record.description_key) s).1 = s.sequence + 1 := by
        unfold create_subscription_from_transaction
        rw [hrev]
      have h2 : (create_subscription_from_transaction
          (similarOf s.transactions record.description_key) s).2.transactions
          = linkByKey latest.description_key (s.sequence + 1) s.transactions := by
        unfold create_subscription_from_transaction
        rw [hrev]
      rw [h1, h2]
      have hne : linkByKey latest.description_key (s.sequence + 1) s.transactions ≠ [] := by
        unfold linkByKey
        intro hnil
        exact htx (List.map_eq_nil_iff.mp hnil)
      obtain ⟨x, hx, hid⟩ := exists_mem_updateLast (s.sequence + 1) _ hne
      intro hnil
      have hmem : x ∈ ([] : List TransactionRecord) := by
        rw [← hnil]
        exact List.mem_filter.mpr ⟨hx, by simp [hid]⟩
      cases hmem

/-- Witness for C10 at the two-record Spotify state, whose cadence pair is
30 days apart. -/
theorem average_amount_args_nonempty_witness :
    twoTxState.transactions.getLast? = some recB
    ∧ (similarOf twoTxState.transactions recB.description_key).reverse
        = [recB, recA]
    ∧ (similarOf twoTxState.transactions recB.description_key ≠ []
      ∧ ((updateLast
            (resolveSubscriptionId recA
              (similarOf twoTxState.transactions recB.description_key) twoTxState).1
            (resolveSubscriptionId recA
              (similarOf twoTxState.transactions recB.description_key)
                twoTxState).2.transactions).filter
          (fun tx => tx.subscription_id
            == some (resolveSubscriptionId recA
                (similarOf twoTxState.transactions recB.description_key)
                  twoTxState).1)) ≠ []) :=
  ⟨by decide, by decide,
   average_amount_args_nonempty twoTxState recB (by decide) recB recA []
     (by decide) (by decide) (by decide)⟩


/-- In a registry with `Nodup` ids, an id determines its entry. -/
theorem eq_of_mem_of_id_eq {subs : List Subscription}
    (hnd : (subs.map (fun x => x.id)).Nodup) {x y : Subscription}
    (hx : x ∈ subs) (hy : y ∈ subs) (h : x.id = y.id) : x = y :=
  List.inj_on_of_nodup_map hnd hx hy h

/-- Invariant of the email-correlator write-back loops: folding id-keyed
assignments of updated copies over a suffix of the matched entries applies
the update to exactly the already-processed matches. -/
theorem foldl_registryUpdate_pre (f : Subscription → Subscription)
    (hf : ∀ x, (f x).id = x.id) (q : Subscription → Bool)
    (subs : List Subscription) (hnd : (subs.map (fun x => x.id)).Nodup) :
    ∀ (post pre : List Subscription), subs.filter q = pre ++ post →
      post.foldl (fun acc sub => registryUpdate acc (f sub))
        (subs.map (fun x =>
          if q x && pre.any (fun y => y.id == x.id) then f x else x))
      = subs.map (fun x =>
          if q x && (pre ++ post).any (fun y => y.id == x.id) then f x else x) := by
  intro post
  induction post with
  | nil =>
    intro pre hfil
    simp
  | cons m rest ih =>
    intro pre hfil
    have hm : m ∈ subs.filter q := by
      rw [hfil]
      exact List.mem_append_right _ (List.mem_cons_self _ _)
    have hmq : q m = true := (List.mem_filter.mp hm).2
    have hms : m ∈ subs := (List.mem_filter.mp hm).1
    have hgid : ∀ (pre' : List Subscription) (x : Subscription),
        (if q x && pre'.any (fun y => y.id == x.id) then f x else x).id = x.id := by
      intro pre' x
      split
      · exact hf x
      · rfl
    have hstep : registryUpdate
        (subs.map (fun x =>
          if q x && pre.any (fun y => y.id == x.id) then f x else x)) (f m)
        = subs.map (fun x =>
            if q x && (pre ++ [m]).any (fun y => y.id == x.id) then f x else x) := by
      have hany : ((subs.map (fun x =>
          if q x && pre.any (fun y => y.id == x.id) then f x else x)).any
            (fun r => r.id == (f m).id)) = true := by
        rw [List.any_eq_true]
        refine ⟨(if q m && pre.any (fun y => y.id == m.id) then f m else m),
          List.mem_map_of_mem _ hms, ?_⟩
        rw [hgid pre m, hf m]
        exact beq_self_eq_true _
      unfold registryUpdate
      rw [hany]
      simp only [if_true]
      rw [List.map_map]
      apply List.map_congr_left
      intro x hx
      simp only [Function.comp_apply]
      by_cases hid : x.id = m.id
      · have hxm : x = m := eq_of_mem_of_id_eq hnd hx hms hid
        rw [← hxm] at hmq ⊢
        rw [hgid pre x, hf x]
        simp [hmq]
      · have h1 : ((if q x && pre.any (fun y => y.id == x.id) then f x else x).id
            == (f m).id) = false := by
          rw [beq_eq_false_iff_ne, hgid pre x, hf m]
          exact hid
        have h2 : ((pre ++ [m]).any fun y => y.id == x.id)
            = (pre.any fun y => y.id == x.id) := by
          rw [List.any_append]
          have h3 : ([m].any fun y => y.id == x.id) = false := by
            simp only [List.any_cons, List.any_nil, Bool.or_false]
            rw [beq_eq_false_iff_ne]
            exact fun hmx => hid hmx.symm
          rw [h3, Bool.or_false]
        rw [h1, h2]
        simp
    rw [List.foldl_cons, hstep,
      ih (pre ++ [m]) (by rw [hfil, List.append_assoc]; rfl)]
    have hl : (pre ++ [m]) ++ rest = pre ++ m :: rest := by simp
    rw [hl]

/-- The write-back loop over all matched registry entries equals a single
in-place map over the registry, when ids are distinct and the update
preserves the id. -/
theorem foldl_registryUpdate_eq_map (f : Subscription → Subscription)
    (hf : ∀ x, (f x).id = x.id) (q : Subscription → Bool)
    (subs : List Subscription) (hnd : (subs.map (fun x => x.id)).Nodup)
    (m : List Subscription) (hm : m = subs.filter q) :
    m.foldl (fun acc sub => registryUpdate acc (f sub)) subs
    = subs.map (fun x => if q x then f x else x) := by
  have h0 := foldl_registryUpdate_pre f hf q subs hnd m [] (by rw [hm]; rfl)
  simp only [List.any_nil, Bool.and_false, Bool.false_eq_true, if_false,
    List.nil_append, List.map_id'] at h0
  rw [h0]
  apply List.map_congr_left
  intro x hx
  by_cases hq : q x = true
  · have hxm : x ∈ m := by
      rw [hm]
      exact List.mem_filter.mpr ⟨hx, hq⟩
    have hany : (m.any fun y => y.id == x.id) = true := by
      rw [List.any_eq_true]
      exact ⟨x, hxm, beq_self_eq_true _⟩
    simp [hq, hany]
  · have hq' : q x = false := by
      rwa [Bool.not_eq_true] at hq
    simp [hq']


/-- C9.  An ingested email tagged `price_increase` (with no concurrent
renewal effect) sets every registry entry's note — active or cancelled,
regardless of provider — to "Price increase detected on {email date}",
and changes no other field of any subscription. -/
theorem price_increase_blanket_note (e : EmailRecord) (subs : List Subscription)
    (h1 : "price_increase" ∈ e.tags) (h2 : "renewal_notice" ∉ e.tags)
    (hnd : (subs.map (fun sub => sub.id)).Nodup) :
    maybe_update_subscription_from_email e subs
    = subs.map (fun sub => { sub with
        notes := some ("Price increase detected on "
          ++ dateISO (dateOfTs e.timestamp)) }) := by
  have hc1 : e.tags.contains "price_increase" = true := by
    rw [List.contains_eq_any_beq, List.any_eq_true]
    exact ⟨_, h1, beq_self_eq_true _⟩
  have hc2 : e.tags.contains "renewal_notice" = false := by
    rw [List.contains_eq_any_beq, List.any_eq_false]
    intro x hx hbeq
    exact h2 ((beq_iff_eq.mp hbeq) ▸ hx)
  unfold maybe_update_subscription_from_email
  rw [hc1, hc2]
  simp only [if_true, Bool.false_eq_true, if_false]
  unfold priceIncreaseEffect
  rw [foldl_registryUpdate_eq_map
    (fun sub => { sub with notes := some ("Price increase detected on "
      ++ dateISO (dateOfTs e.timestamp)) })
    (fun x => rfl) (fun _ => true) subs hnd subs
    (by rw [List.filter_eq_self.mpr (fun a _ => rfl)])]
  apply List.map_congr_left
  intro x _
  rfl

/-- C7.  An ingested email tagged `renewal_notice` (with no concurrent
price-increase effect) derives a provider from the subject, matches it
case-insensitively against all providers, sets every matching
subscription's next renewal date to the email date plus 7 days and its
note to "Renewal reminder synced from email", leaves non-matching
subscriptions untouched, and when nothing matches changes nothing. -/
theorem renewal_notice_updates_matching (e : EmailRecord) (subs : List Subscription)
    (h1 : "renewal_notice" ∈ e.tags) (h2 : "price_increase" ∉ e.tags)
    (hnd : (subs.map (fun sub => sub.id)).Nodup) :
    maybe_update_subscription_from_email e subs
      = subs.map (fun sub =>
          if strLower sub.provider == strLower (derive_provider_name e.subject) then
            { sub with
              next_renewal_date := dateOfTs (e.timestamp + 7 * 86400)
              notes := some "Renewal reminder synced from email" }
          else sub)
    ∧ ((∀ sub ∈ subs,
          strLower sub.provider ≠ strLower (derive_provider_name e.subject)) →
        maybe_update_subscription_from_email e subs = subs) := by
  have hc1 : e.tags.contains "price_increase" = false := by
    rw [List.contains_eq_any_beq, List.any_eq_false]
    intro x hx hbeq
    exact h2 ((beq_iff_eq.mp hbeq) ▸ hx)
  have hc2 : e.tags.contains "renewal_notice" = true := by
    rw [List.contains_eq_any_beq, List.any_eq_true]
    exact ⟨_, h1, beq_self_eq_true _⟩
  have hmain : maybe_update_subscription_from_email e subs
      = renewalNoticeEffect e subs := by
    unfold maybe_update_subscription_from_email
    rw [hc1, hc2]
    simp only [if_true, Bool.false_eq_true, if_false]
  rw [hmain]
  constructor
  · unfold renewalNoticeEffect
    cases hemp : (subs.filter
        (fun sub => strLower sub.provider
          == strLower (derive_provider_name e.subject))).isEmpty with
    | true =>
      simp only [hemp, if_true]
      have hnil := List.isEmpty_eq_true.mp hemp
      have hall := List.filter_eq_nil_iff.mp hnil
      apply Eq.symm
      apply (List.map_congr_left ?_).trans (List.map_id' subs)
      intro x hx
      have hqx : (strLower x.provider
          == strLower (derive_provider_name e.subject)) = false := by
        rw [Bool.eq_false_iff]
        intro hq
        exact hall x hx hq
      rw [hqx]
      simp
    | false =>
      simp only [hemp, Bool.false_eq_true, if_false]
      exact foldl_registryUpdate_eq_map
        (fun sub => { sub with
          next_renewal_date := dateOfTs (e.timestamp + 7 * 86400)
          notes := some "Renewal reminder synced from email" })
        (fun x => rfl)
        (fun sub => strLower sub.provider
          == strLower (derive_provider_name e.subject))
        subs hnd
        (subs.filter (fun sub => strLower sub.provider
          == strLower (derive_provider_name e.subject)))
        rfl
  · intro hno
    unfold renewalNoticeEffect
    have hnil : subs.filter (fun sub => strLower sub.provider
        == strLower (derive_provider_name e.subject)) = [] := by
      rw [List.filter_eq_nil_iff]
      intro a ha hq
      exact hno a ha (beq_iff_eq.mp hq)
    simp [hnil]


/-- Witness for C9: the lone subscription gets the dated note. -/
theorem price_increase_blanket_note_witness :
    ("price_increase" ∈ priceEmail.tags)
    ∧ ("renewal_notice" ∉ priceEmail.tags)
    ∧ maybe_update_subscription_from_email priceEmail [sub99]
      = [{ sub99 with notes := some "Price increase detected on 1970-01-01" }] :=
  ⟨by decide, by decide,
   (price_increase_blanket_note priceEmail [sub99]
      (by decide) (by decide) (by decide)).trans (by decide)⟩

/-- Witness for C7: the Spotify subscription is matched by the derived
provider and gets the synced renewal date and note. -/
theorem renewal_notice_updates_matching_witness :
    ("renewal_notice" ∈ renewalEmail.tags)
    ∧ ("price_increase" ∉ renewalEmail.tags)
    ∧ maybe_update_subscription_from_email renewalEmail [sub99]
      = [{ sub99 with
           next_renewal_date := 7
           notes := some "Renewal reminder synced from email" }] :=
  ⟨by decide, by decide,
   ((renewal_notice_updates_matching renewalEmail [sub99]
      (by decide) (by decide) (by decide)).1).trans (by decide)⟩


/-- Stable insertion keeps the same multiset of subscriptions. -/
theorem insertRen_perm (x : Subscription) (l : List Subscription) :
    (insertRen x l).Perm (x :: l) := by
  induction l with
  | nil => exact List.Perm.refl _
  | cons a t ih =>
    show (if a.next_renewal_date ≤ x.next_renewal_date
        then a :: insertRen x t else x :: a :: t).Perm (x :: a :: t)
    split
    · exact (ih.cons a).trans (List.Perm.swap x a t)
    · exact List.Perm.refl _

/-- The insertion-sort fold permutes accumulator plus input. -/
theorem foldl_insertRen_perm :
    ∀ (l acc : List Subscription),
      (l.foldl (fun a sub => insertRen sub a) acc).Perm (acc ++ l) := by
  intro l
  induction l with
  | nil => intro acc; simp
  | cons x xs ih =>
    intro acc
    rw [List.foldl_cons]
    exact ((ih (insertRen x acc)).trans
      ((insertRen_perm x acc).append_right xs)).trans List.perm_middle.symm

/-- Membership in an insertion. -/
theorem mem_insertRen {x y : Subscription} {l : List Subscription} :
    y ∈ insertRen x l ↔ y = x ∨ y ∈ l := by
  rw [(insertRen_perm x l).mem_iff, List.mem_cons]

/-- Insertion into a renewal-date-sorted list keeps it sorted. -/
theorem insertRen_pairwise (x : Subscription) :
    ∀ l : List Subscription,
      l.Pairwise (fun a b => a.next_renewal_date ≤ b.next_renewal_date) →
      (insertRen x l).Pairwise
        (fun a b => a.next_renewal_date ≤ b.next_renewal_date) := by
  intro l
  induction l with
  | nil => intro _; simp [insertRen]
  | cons a t ih =>
    intro h
    rw [List.pairwise_cons] at h
    show (if a.next_renewal_date ≤ x.next_renewal_date
        then a :: insertRen x t else x :: a :: t).Pairwise _
    by_cases hcond : a.next_renewal_date ≤ x.next_renewal_date
    · rw [if_pos hcond, List.pairwise_cons]
      refine ⟨?_, ih h.2⟩
      intro b hb
      rcases mem_insertRen.mp hb with rfl | hbt
      · exact hcond
      · exact h.1 b hbt
    · rw [if_neg hcond, List.pairwise_cons]
      refine ⟨?_, ?_⟩
      · intro b hb
        rcases List.mem_cons.mp hb with rfl | hbt
        · exact le_of_not_le hcond
        · exact le_trans (le_of_not_le hcond) (h.1 b hbt)
      · rw [List.pairwise_cons]
        exact h

/-- The insertion-sort fold of a sorted accumulator is sorted. -/
theorem foldl_insertRen_pairwise :
    ∀ (l acc : List Subscription),
      acc.Pairwise (fun a b => a.next_renewal_date ≤ b.next_renewal_date) →
      (l.foldl (fun a sub => insertRen sub a) acc).Pairwise
        (fun a b => a.next_renewal_date ≤ b.next_renewal_date) := by
  intro l
  induction l with
  | nil => intro acc h; exact h
  | cons x xs ih =>
    intro acc h
    rw [List.foldl_cons]
    exact ih _ (insertRen_pairwise x acc h)

/-- Stability of insertion: per renewal date, insertion appends. -/
theorem insertRen_filter (d : Nat) (x : Subscription) :
    ∀ l : List Subscription,
      l.Pairwise (fun a b => a.next_renewal_date ≤ b.next_renewal_date) →
      (insertRen x l).filter (fun y => y.next_renewal_date == d)
      = (l ++ [x]).filter (fun y => y.next_renewal_date == d) := by
  intro l
  induction l with
  | nil => intro _; rfl
  | cons a t ih =>
    intro h
    rw [List.pairwise_cons] at h
    show (if a.next_renewal_date ≤ x.next_renewal_date
        then a :: insertRen x t else x :: a :: t).filter _ = _
    by_cases hcond : a.next_renewal_date ≤ x.next_renewal_date
    · rw [if_pos hcond]
      simp only [List.cons_append, List.filter_cons, ih h.2]
    · rw [if_neg hcond]
      by_cases hx : (x.next_renewal_date == d) = true
      · have hnil : (a :: t).filter (fun y => y.next_renewal_date == d) = [] := by
          rw [List.filter_eq_nil_iff]
          intro y hy hpy
          have hyd : y.next_renewal_date = d := beq_iff_eq.mp hpy
          have hxd : x.next_renewal_date = d := beq_iff_eq.mp hx
          have hxa : x.next_renewal_date < a.next_renewal_date :=
            lt_of_not_le hcond
          have hay : a.next_renewal_date ≤ y.next_renewal_date := by
            rcases List.mem_cons.mp hy with rfl | hyt
            · exact le_refl _
            · exact h.1 y hyt
          omega
        rw [List.filter_append, hnil]
        simp [List.filter_cons, hx, hnil]
      · simp [List.filter_cons, List.filter_append, hx]

/-- Stability of the insertion-sort fold, per renewal date. -/
theorem foldl_insertRen_filter (d : Nat) :
    ∀ (l acc : List Subscription),
      acc.Pairwise (fun a b => a.next_renewal_date ≤ b.next_renewal_date) →
      (l.foldl (fun a sub => insertRen sub a) acc).filter
          (fun y => y.next_renewal_date == d)
      = acc.filter (fun y => y.next_renewal_date == d)
        ++ l.filter (fun y => y.next_renewal_date == d) := by
  intro l
  induction l with
  | nil => intro acc _; simp
  | cons x xs ih =>
    intro acc h
    rw [List.foldl_cons, ih _ (insertRen_pairwise x acc h),
      insertRen_filter d x acc h]
    by_cases hx : (x.next_renewal_date == d) = true
    · simp [List.filter_cons, List.filter_append, hx]
    · simp [List.filter_cons, List.filter_append, hx]

/-- `sorted(..., key=next_renewal_date)` permutes its input. -/
theorem sortByRenewal_perm (l : List Subscription) :
    (sortByRenewal l).Perm l := by
  have h := foldl_insertRen_perm l []
  simpa [sortByRenewal] using h

/-- `sorted(..., key=next_renewal_date)` sorts ascending. -/
theorem sortByRenewal_pairwise (l : List Subscription) :
    (sortByRenewal l).Pairwise
      (fun a b => a.next_renewal_date ≤ b.next_renewal_date) :=
  foldl_insertRen_pairwise l [] List.Pairwise.nil

/-- `sorted(...)` is stable: equal-date entries keep input order. -/
theorem sortByRenewal_filter (d : Nat) (l : List Subscription) :
    (sortByRenewal l).filter (fun y => y.next_renewal_date == d)
    = l.filter (fun y => y.next_renewal_date == d) := by
  have h := foldl_insertRen_filter d l [] List.Pairwise.nil
  simpa [sortByRenewal] using h


/-- C8.  The dashboard, for any `today` and horizon, lists as upcoming
renewals exactly the Active subscriptions with renewal date at most
`today + horizon` (as a multiset), ascending by renewal date and stable on
ties with respect to registry order; every listed entry is Active and
inside the horizon (so Cancelled and past-horizon subscriptions are
excluded); monthly commitment is the 2-decimal-rounded sum of Active
costs; total savings is the 2-decimal-rounded accumulator; and the
projection leaves the manager state unchanged. -/
theorem dashboard_projection (today horizon_days : Nat) (s : ManagerState) :
    (dashboard today horizon_days s).upcoming_renewals.Perm
        ((s.subscriptions.filter
            (fun sub => sub.status == SubscriptionStatus.active)).filter
          (fun sub => sub.next_renewal_date ≤ today + horizon_days))
    ∧ (dashboard today horizon_days s).upcoming_renewals.Pairwise
        (fun a b => a.next_renewal_date ≤ b.next_renewal_date)
    ∧ (∀ d, (dashboard today horizon_days s).upcoming_renewals.filter
          (fun sub => sub.next_renewal_date == d)
        = ((s.subscriptions.filter
              (fun sub => sub.status == SubscriptionStatus.active)).filter
            (fun sub => sub.next_renewal_date ≤ today + horizon_days)).filter
            (fun sub => sub.next_renewal_date == d))
    ∧ (∀ sub ∈ (dashboard today horizon_days s).upcoming_renewals,
        sub.status = SubscriptionStatus.active
        ∧ sub.next_renewal_date ≤ today + horizon_days)
    ∧ (dashboard today horizon_days s).monthly_commitment
        = round2 ((s.subscriptions.filter
            (fun sub => sub.status == SubscriptionStatus.active)).map
            (fun sub => sub.monthly_cost)).sum
    ∧ (dashboard today horizon_days s).total_savings = round2 s.saved_total
    ∧ applyOp (Op.dash today horizon_days) s = s := by
  have hup : (dashboard today horizon_days s).upcoming_renewals
      = sortByRenewal
          ((s.subscriptions.filter
              (fun sub => sub.status == SubscriptionStatus.active)).filter
            (fun sub => sub.next_renewal_date ≤ today + horizon_days)) := rfl
  refine ⟨?_, ?_, ?_, ?_, rfl, rfl, rfl⟩
  · rw [hup]
    exact sortByRenewal_perm _
  · rw [hup]
    exact sortByRenewal_pairwise _
  · intro d
    rw [hup]
    exact sortByRenewal_filter d _
  · intro sub hsub
    rw [hup] at hsub
    have hsub' := (sortByRenewal_perm _).mem_iff.mp hsub
    have h2 := List.mem_filter.mp hsub'
    have h1 := List.mem_filter.mp h2.1
    constructor
    · simpa using h1.2
    · simpa using h2.2


/-- Witness for C8 at the one-subscription state with the default horizon. -/
theorem dashboard_projection_witness :
    (dashboard 0 14 oneSubState).upcoming_renewals.Pairwise
      (fun a b => a.next_renewal_date ≤ b.next_renewal_date)
    ∧ (dashboard 0 14 oneSubState).total_savings = round2 oneSubState.saved_total
    ∧ applyOp (Op.dash 0 14) oneSubState = oneSubState :=
  ⟨(dashboard_projection 0 14 oneSubState).2.1,
   (dashboard_projection 0 14 oneSubState).2.2.2.2.2.1,
   (dashboard_projection 0 14 oneSubState).2.2.2.2.2.2⟩


/-- Registration appends the new record and links it. -/
theorem register_transaction_eq (t : TransactionIn) (s : ManagerState) :
    register_transaction t s
    = link_transaction { s with transactions := s.transactions ++ [recordOf t] } := rfl

/-- `_link_transaction` with at least two same-key records and an in-window
day interval proceeds to the link continuation. -/
theorem link_transaction_cons (s : ManagerState) (record : TransactionRecord)
    (hlast : s.transactions.getLast? = some record)
    (latest previous : TransactionRecord) (rest : List TransactionRecord)
    (hrev : (similarOf s.transactions record.description_key).reverse
        = latest :: previous :: rest)
    (hg : 27 ≤ (latest.timestamp - previous.timestamp) / 86400
      ∧ (latest.timestamp - previous.timestamp) / 86400 ≤ 33) :
    link_transaction s
      = linkFound previous (similarOf s.transactions record.description_key) s := by
  unfold link_transaction
  cases hl : s.transactions.getLast? with
  | none =>
    rw [hl] at hlast
    cases hlast
  | some r0 =>
    rw [hl] at hlast
    injection hlast with h0
    subst h0
    simp only [hrev]
    rw [if_pos hg]

/-- `_link_transaction` with a single same-key record does nothing. -/
theorem link_transaction_single (s : ManagerState) (record x : TransactionRecord)
    (hlast : s.transactions.getLast? = some record)
    (hrev : (similarOf s.transactions record.description_key).reverse = [x]) :
    link_transaction s = (none, s) := by
  unfold link_transaction
  cases hl : s.transactions.getLast? with
  | none => rfl
  | some r0 =>
    rw [hl] at hlast
    injection hlast with h0
    subst h0
    simp only [hrev]

/-- `_link_transaction` with an out-of-window day interval does nothing. -/
theorem link_transaction_out_of_window (s : ManagerState)
    (record latest previous : TransactionRecord) (rest : List TransactionRecord)
    (hlast : s.transactions.getLast? = some record)
    (hrev : (similarOf s.transactions record.description_key).reverse
        = latest :: previous :: rest)
    (hg : ¬(27 ≤ (latest.timestamp - previous.timestamp) / 86400
      ∧ (latest.timestamp - previous.timestamp) / 86400 ≤ 33)) :
    link_transaction s = (none, s) := by
  unfold link_transaction
  cases hl : s.transactions.getLast? with
  | none => rfl
  | some r0 =>
    rw [hl] at hlast
    injection hlast with h0
    subst h0
    simp only [hrev]
    rw [if_neg hg]

/-- Unfolding the link continuation once the resolved id is known. -/
theorem linkFound_eq (previous : TransactionRecord)
    (similar : List TransactionRecord) (s : ManagerState)
    (sid : Nat) (s1 : ManagerState)
    (h : resolveSubscriptionId previous similar s = (sid, s1)) :
    linkFound previous similar s
    = (findSubscription (update_subscription_from_transactions sid
          { s1 with transactions := updateLast sid s1.transactions }) sid,
       update_subscription_from_transactions sid
          { s1 with transactions := updateLast sid s1.transactions }) := by
  unfold linkFound
  rw [h]

/-- Snapshot recomputation never touches the sequence counter. -/
theorem update_sequence (sid : Nat) (s : ManagerState) :
    (update_subscription_from_transactions sid s).sequence = s.sequence := by
  unfold update_subscription_from_transactions
  cases hf : List.filter (fun tx => tx.subscription_id == some sid) s.transactions with
  | nil => simp only [hf]
  | cons t0 rest =>
    simp only [hf]
    cases hfind : findSubscription s sid with
    | none => simp only [hfind]
    | some sub => simp only [hfind]


/-- Recomputing the snapshot of the just-created last registry entry
replaces it in place and leaves it findable under its id. -/
theorem update_subscriptions_shape (sid : Nat) (s : ManagerState)
    (base : List Subscription) (subC : Subscription)
    (hsubs : s.subscriptions = base ++ [subC]) (hid : subC.id = sid)
    (hbase : ∀ r ∈ base, r.id ≠ sid)
    (hne : s.transactions.filter (fun tx => tx.subscription_id == some sid) ≠ []) :
    ∃ sub', sub'.id = sid
      ∧ (update_subscription_from_transactions sid s).subscriptions = base ++ [sub']
      ∧ findSubscription (update_subscription_from_transactions sid s) sid
          = some sub' := by
  have hfind : findSubscription s sid = some subC := by
    unfold findSubscription
    rw [hsubs, find?_id_append sid base _ hbase]
    simp [hid]
  cases hf : s.transactions.filter (fun tx => tx.subscription_id == some sid) with
  | nil => exact absurd hf hne
  | cons t0 rest =>
    unfold update_subscription_from_transactions
    simp only [hf, hfind]
    have hru : registryUpdate (base ++ [subC])
        { subC with
          monthly_cost := round2 |average_amount (t0 :: rest)|
          next_renewal_date := dateOfTs ((maxByTs t0 rest).timestamp + 30 * 86400)
          last_transaction_at := (maxByTs t0 rest).timestamp }
        = base ++ [{ subC with
            monthly_cost := round2 |average_amount (t0 :: rest)|
            next_renewal_date := dateOfTs ((maxByTs t0 rest).timestamp + 30 * 86400)
            last_transaction_at := (maxByTs t0 rest).timestamp }] := by
      refine registryUpdate_last base subC _ rfl ?_
      intro r hr
      rw [hid]
      exact hbase r hr
    refine ⟨{ subC with
        monthly_cost := round2 |average_amount (t0 :: rest)|
        next_renewal_date := dateOfTs ((maxByTs t0 rest).timestamp + 30 * 86400)
        last_transaction_at := (maxByTs t0 rest).timestamp }, hid, ?_, ?_⟩
    · show registryUpdate s.subscriptions _ = _
      rw [hsubs]
      exact hru
    · show findSubscription { s with subscriptions := registryUpdate s.subscriptions _ } sid = _
      unfold findSubscription
      show (registryUpdate s.subscriptions _).find? _ = _
      rw [hsubs, hru, find?_id_append sid base _ hbase]
      simp [hid]


/-- Linking a new same-key record whose cluster has exactly one prior,
unlinked record and an in-window cadence interval creates exactly one fresh
subscription, appended to the registry with the next sequence value. -/
theorem link_two_creates
    (s : ManagerState) (key : String) (p rec u v : TransactionRecord)
    (hkey : rec.description_key = key)
    (hvkey : v.description_key = key)
    (hfil : s.transactions.filter (fun r => r.description_key == key) = [p])
    (hsorted : sortByTs [p, rec] = [u, v])
    (huid : u.subscription_id = none)
    (hids : ∀ sub ∈ s.subscriptions, sub.id ≠ s.sequence + 1)
    (htxids : ∀ r ∈ s.transactions, r.subscription_id ≠ some (s.sequence + 1))
    (hguard : 27 ≤ (v.timestamp - u.timestamp) / 86400
      ∧ (v.timestamp - u.timestamp) / 86400 ≤ 33) :
    ∃ sub,
      (link_transaction { s with transactions := s.transactions ++ [rec] }).1
        = some sub
      ∧ (link_transaction
          { s with transactions := s.transactions ++ [rec] }).2.subscriptions
        = s.subscriptions ++ [sub]
      ∧ sub.id = s.sequence + 1
      ∧ (link_transaction
          { s with transactions := s.transactions ++ [rec] }).2.sequence
        = s.sequence + 1 := by
  have hlast : ({ s with transactions := s.transactions ++ [rec] }
      : ManagerState).transactions.getLast? = some rec := List.getLast?_concat _
  have hfil2 : (s.transactions ++ [rec]).filter
      (fun r => r.description_key == rec.description_key) = [p, rec] := by
    rw [hkey, List.filter_append, hfil]
    simp [hkey]
  have hsim : similarOf (s.transactions ++ [rec]) rec.description_key = [u, v] := by
    unfold similarOf
    rw [hfil2, hsorted]
  have hrev : (similarOf (s.transactions ++ [rec]) rec.description_key).reverse
      = [v, u] := by
    rw [hsim]
    rfl
  have hlink : link_transaction { s with transactions := s.transactions ++ [rec] }
      = linkFound u (similarOf (s.transactions ++ [rec]) rec.description_key)
          { s with transactions := s.transactions ++ [rec] } :=
    link_transaction_cons _ rec hlast v u [] hrev hguard
  have hres : resolveSubscriptionId u
      (similarOf (s.transactions ++ [rec]) rec.description_key)
      { s with transactions := s.transactions ++ [rec] }
      = (s.sequence + 1,
         (create_subscription_from_transaction [u, v]
           { s with transactions := s.transactions ++ [rec] }).2) := by
    unfold resolveSubscriptionId
    rw [huid, hsim]
    rfl
  have hlf : linkFound u (similarOf (s.transactions ++ [rec]) rec.description_key)
      { s with transactions := s.transactions ++ [rec] }
      = (findSubscription (update_subscription_from_transactions (s.sequence + 1)
            { (create_subscription_from_transaction [u, v]
                { s with transactions := s.transactions ++ [rec] }).2 with
              transactions := updateLast (s.sequence + 1)
                (create_subscription_from_transaction [u, v]
                  { s with transactions := s.transactions ++ [rec] }).2.transactions })
          (s.sequence + 1),
         update_subscription_from_transactions (s.sequence + 1)
            { (create_subscription_from_transaction [u, v]
                { s with transactions := s.transactions ++ [rec] }).2 with
              transactions := updateLast (s.sequence + 1)
                (create_subscription_from_transaction [u, v]
                  { s with transactions := s.transactions ++ [rec] }).2.transactions }) :=
    linkFound_eq _ _ _ _ _ hres
  have hs1subs : (create_subscription_from_transaction [u, v]
      { s with transactions := s.transactions ++ [rec] }).2.subscriptions
      = s.subscriptions ++ [createdSub (s.sequence + 1) [u, v] v] := by
    show registryUpdate s.subscriptions _ = _
    exact registryUpdate_fresh _ _ (fun r hr => hids r hr)
  have hs2tx : updateLast (s.sequence + 1)
      (create_subscription_from_transaction [u, v]
        { s with transactions := s.transactions ++ [rec] }).2.transactions
      = linkByKey key (s.sequence + 1) s.transactions
        ++ [{ rec with subscription_id := some (s.sequence + 1) }] := by
    show updateLast (s.sequence + 1)
        (linkByKey v.description_key (s.sequence + 1) (s.transactions ++ [rec])) = _
    rw [hvkey]
    have hlb : linkByKey key (s.sequence + 1) (s.transactions ++ [rec])
        = linkByKey key (s.sequence + 1) s.transactions
          ++ [{ rec with subscription_id := some (s.sequence + 1) }] := by
      unfold linkByKey
      rw [List.map_append]
      congr 1
      simp [hkey]
    rw [hlb, updateLast_append]
  have hfl : (linkByKey key (s.sequence + 1) s.transactions
        ++ [{ rec with subscription_id := some (s.sequence + 1) }]).filter
          (fun tx => tx.subscription_id == some (s.sequence + 1))
      = [{ p with subscription_id := some (s.sequence + 1) },
         { rec with subscription_id := some (s.sequence + 1) }] := by
    rw [List.filter_append,
      filter_linkByKey key (s.sequence + 1) s.transactions htxids, hfil]
    simp
  obtain ⟨sub', hsub'id, hsub'subs, hsub'find⟩ :=
    update_subscriptions_shape (s.sequence + 1)
      { (create_subscription_from_transaction [u, v]
          { s with transactions := s.transactions ++ [rec] }).2 with
        transactions := updateLast (s.sequence + 1)
          (create_subscription_from_transaction [u, v]
            { s with transactions := s.transactions ++ [rec] }).2.transactions }
      s.subscriptions
      (createdSub (s.sequence + 1) [u, v] v)
      hs1subs rfl hids
      (by
        show (updateLast (s.sequence + 1)
            (create_subscription_from_transaction [u, v]
              { s with transactions := s.transactions ++ [rec] }).2.transactions).filter
            (fun tx => tx.subscription_id == some (s.sequence + 1)) ≠ []
        rw [hs2tx, hfl]
        simp)
  refine ⟨sub', ?_, ?_, hsub'id, ?_⟩
  · rw [hlink, hlf]
    exact hsub'find
  · rw [hlink, hlf]
    exact hsub'subs
  · rw [hlink, hlf]
    show (update_subscription_from_transactions (s.sequence + 1) _).sequence
        = s.sequence + 1
    rw [update_sequence]
    rfl


/-- C3.  Registering a transaction whose normalized key matches exactly one
prior, unlinked transaction creates exactly one new subscription (fresh
sequence id, appended to the registry) and returns it when the two
timestamps are 27-33 days apart (day granularity); with no same-key prior,
or with the two most recent same-key timestamps outside [27, 33] days,
nothing is returned and registry and sequence are untouched.  The
freshness hypotheses on ids are the engine's sequence invariants. -/
theorem cadence_detection (s : ManagerState) (t : TransactionIn) :
    (∀ p : TransactionRecord,
        s.transactions.filter
          (fun r => r.description_key == normalize_description t.description) = [p] →
        p.subscription_id = none →
        (∀ sub ∈ s.subscriptions, sub.id ≠ s.sequence + 1) →
        (∀ r ∈ s.transactions, r.subscription_id ≠ some (s.sequence + 1)) →
        27 ≤ (max p.timestamp t.timestamp - min p.timestamp t.timestamp) / 86400 →
        (max p.timestamp t.timestamp - min p.timestamp t.timestamp) / 86400 ≤ 33 →
        ∃ sub, (register_transaction t s).1 = some sub
          ∧ (register_transaction t s).2.subscriptions = s.subscriptions ++ [sub]
          ∧ sub.id = s.sequence + 1
          ∧ (register_transaction t s).2.sequence = s.sequence + 1)
    ∧ (s.transactions.filter
          (fun r => r.description_key == normalize_description t.description) = [] →
        (register_transaction t s).1 = none
        ∧ (register_transaction t s).2.subscriptions = s.subscriptions
        ∧ (register_transaction t s).2.sequence = s.sequence)
    ∧ (∀ (latest previous : TransactionRecord) (rest : List TransactionRecord),
        (similarOf (s.transactions ++ [recordOf t])
            (normalize_description t.description)).reverse
          = latest :: previous :: rest →
        ¬(27 ≤ (latest.timestamp - previous.timestamp) / 86400
            ∧ (latest.timestamp - previous.timestamp) / 86400 ≤ 33) →
        (register_transaction t s).1 = none
        ∧ (register_transaction t s).2.subscriptions = s.subscriptions
        ∧ (register_transaction t s).2.sequence = s.sequence) := by
  refine ⟨?_, ?_, ?_⟩
  · intro p hfil hpnone hids htxids hlo hhi
    have hne : p.timestamp ≠ t.timestamp := by
      intro he
      rw [he] at hlo
      simp at hlo
    rcases Nat.lt_or_ge p.timestamp t.timestamp with hts | hts
    · have hmax : max p.timestamp t.timestamp = t.timestamp :=
        max_eq_right (le_of_lt hts)
      have hmin : min p.timestamp t.timestamp = p.timestamp :=
        min_eq_left (le_of_lt hts)
      rw [hmax, hmin] at hlo hhi
      have hsorted : sortByTs [p, recordOf t] = [p, recordOf t] := by
        rw [sortByTs_pair]
        exact if_pos (le_of_lt hts)
      exact link_two_creates s (normalize_description t.description)
        p (recordOf t) p (recordOf t) rfl rfl hfil hsorted hpnone hids htxids
        ⟨hlo, hhi⟩
    · have hts' : t.timestamp < p.timestamp :=
        lt_of_le_of_ne hts (fun h => hne h.symm)
      have hmax : max p.timestamp t.timestamp = p.timestamp := max_eq_left hts
      have hmin : min p.timestamp t.timestamp = t.timestamp := min_eq_right hts
      rw [hmax, hmin] at hlo hhi
      have hsorted : sortByTs [p, recordOf t] = [recordOf t, p] := by
        rw [sortByTs_pair]
        exact if_neg (not_le.mpr hts')
      have hpkey : p.description_key = normalize_description t.description := by
        have hpmem : p ∈ s.transactions.filter
            (fun r => r.description_key == normalize_description t.description) := by
          rw [hfil]
          exact List.mem_cons_self _ _
        exact beq_iff_eq.mp (List.mem_filter.mp hpmem).2
      exact link_two_creates s (normalize_description t.description)
        p (recordOf t) (recordOf t) p rfl hpkey hfil hsorted rfl hids htxids
        ⟨hlo, hhi⟩
  · intro hfil
    have hsim : similarOf (s.transactions ++ [recordOf t])
        (normalize_description t.description) = [recordOf t] := by
      unfold similarOf
      rw [List.filter_append, hfil]
      have hp : ((recordOf t).description_key
          == normalize_description t.description) = true := beq_self_eq_true _
      simp only [List.nil_append, List.filter_cons, hp, if_true, List.filter_nil]
      rfl
    have hrev : (similarOf (s.transactions ++ [recordOf t])
        (normalize_description t.description)).reverse = [recordOf t] := by
      rw [hsim]
      rfl
    have hnone := link_transaction_single
      { s with transactions := s.transactions ++ [recordOf t] }
      (recordOf t) (recordOf t) (List.getLast?_concat _) hrev
    rw [register_transaction_eq t s, hnone]
    exact ⟨rfl, rfl, rfl⟩
  · intro latest previous rest hrev hg
    have hnone := link_transaction_out_of_window
      { s with transactions := s.transactions ++ [recordOf t] }
      (recordOf t) latest previous rest (List.getLast?_concat _) hrev hg
    rw [register_transaction_eq t s, hnone]
    exact ⟨rfl, rfl, rfl⟩


/-- Witness for C3: the second Spotify debit, 30 days after the first,
creates subscription 1. -/
theorem cadence_detection_witness :
    (trace1.2.transactions.filter
        (fun r => r.description_key
          == normalize_description (spotifyTx 2592000).description) = [recA])
    ∧ ∃ sub, (register_transaction (spotifyTx 2592000) trace1.2).1 = some sub
        ∧ (register_transaction (spotifyTx 2592000) trace1.2).2.subscriptions
          = trace1.2.subscriptions ++ [sub]
        ∧ sub.id = trace1.2.sequence + 1
        ∧ (register_transaction (spotifyTx 2592000) trace1.2).2.sequence
          = trace1.2.sequence + 1 :=
  ⟨by decide,
   (cadence_detection trace1.2 (spotifyTx 2592000)).1 recA (by decide) (by decide)
     (by decide) (by decide) (by decide) (by decide)⟩


end App
